import Mathlib

/-!
Verification of the OGC application-package generator.

This file embeds the two Python modules of the repository —
`build_cwl_workflow.py` (YAML configuration → CWL workflow document) and
`deploy_app_pack.py` (HTTP submission with 409/PUT fallback) — as executable
Lean definitions, and proves the testable properties of the specification
against them.

Conventions of the embedding:
- YAML/CWL nested documents become the inductive `Node` (scalar leaf, mapping
  with ordered key/value entries, sequence).  Python `dict` keys may be any
  hashable value, so mapping keys are `Key` (string or integer), matching how
  the source indexes `workflow["$graph"][0]["doc"]`.
- Python exceptions (KeyError / IndexError / TypeError during path descent)
  become `Option`/`Except` failures.
- Python `dict` insertion semantics (update in place when the key is present,
  append otherwise, preserving insertion order) become `dictInsert`, and the
  dict-comprehension merges in the source become `pyDictMerge`.
- Records read with `.get(...)` carry `Option` fields: a YAML record missing a
  key yields Python `None`, modelled as `Option.none`.
-/

namespace CwlGen

/-- Scalar configuration values as loaded from YAML (`None` included, since
`os.getenv` and `.get` return `None` when absent). -/
inductive CVal where
  | s (v : String)
  | i (v : Int)
  | b (v : Bool)
  | none
deriving DecidableEq

/-- Python `str(value)` on the scalar values above. -/
def strOfCVal : CVal → String
  | .s v => v
  | .i n => toString n
  | .b true => "True"
  | .b false => "False"
  | .none => "None"

/-- A single segment of a destination path: a mapping key or a sequence index
(the source's `OGC_CWL_KEY_MAP` mixes both, e.g. `("$graph", 0, "doc")`). -/
inductive Key where
  | str (s : String)
  | idx (n : Nat)
deriving DecidableEq

/-- A nested YAML/CWL document: scalar leaf, ordered mapping, or sequence. -/
inductive Node where
  | leaf (v : CVal)
  | dict (entries : List (Key × Node))
  | arr (items : List Node)

/-- First-match association-list lookup (Python `d[k]` read on a dict). -/
def lookupKV (kvs : List (Key × Node)) (k : Key) : Option Node :=
  match kvs with
  | [] => Option.none
  | p :: rest => if p.1 = k then some p.2 else lookupKV rest k

/-- One step of Python subscript read `container[key]`.  `none` models the
KeyError / IndexError / TypeError raised when the segment does not exist in
the container (or the container is a scalar). -/
def lookupN (w : Node) (k : Key) : Option Node :=
  match w, k with
  | .dict kvs, _ => lookupKV kvs k
  | .arr xs, .idx n => xs[n]?
  | _, _ => Option.none

/-- Python dict assignment `d[k] = v`: update in place when the key is
present, else append (CPython dicts preserve insertion order). -/
def dictAssign (kvs : List (Key × Node)) (k : Key) (v : Node) : List (Key × Node) :=
  if kvs.any (fun p => p.1 = k) then
    kvs.map (fun p => if p.1 = k then (k, v) else p)
  else kvs ++ [(k, v)]

/-- One step of Python subscript write `container[key] = v`.  Mapping targets
accept any key (insert or overwrite); sequence targets require an in-range
index (IndexError otherwise); scalar targets reject every write (TypeError). -/
def setIn (w : Node) (k : Key) (v : Node) : Option Node :=
  match w, k with
  | .dict kvs, _ => some (.dict (dictAssign kvs k v))
  | .arr xs, .idx n => if n < xs.length then some (.arr (xs.set n v)) else Option.none
  | _, _ => Option.none

/-- Whether `container[key] = v` succeeds on this container. -/
def writable (w : Node) (k : Key) : Bool :=
  match w, k with
  | .dict _, _ => true
  | .arr xs, .idx n => n < xs.length
  | _, _ => false

/-- Rebuild a container with the child at an existing key replaced (the
functional image of Python's in-place mutation of the child looked up at that
key). -/
def replaceAt (w : Node) (k : Key) (c : Node) : Node :=
  match w, k with
  | .dict kvs, _ => .dict (kvs.map (fun p => if p.1 = k then (k, c) else p))
  | .arr xs, .idx n => .arr (xs.set n c)
  | w, _ => w

/-- Read the node at a whole path (iterated subscript reads). -/
def descend (w : Node) : List Key → Option Node
  | [] => some w
  | k :: ks =>
    match lookupN w k with
    | Option.none => Option.none
    | some c => descend c ks

/-- Embedding of `set_path_value` (build_cwl_workflow.py): descend through all
but the last segment (`for key in path[:-1]: workflow = workflow[key]`), then
assign at the last (`workflow[path[-1]] = value`).  `none` models the Python
exception: empty path (IndexError on `path[-1]`), a missing intermediate
segment (KeyError/IndexError/TypeError), or a final write the container
rejects. -/
def set_path_value (w : Node) (path : List Key) (v : Node) : Option Node :=
  match path with
  | [] => Option.none
  | [k] => setIn w k v
  | k :: rest =>
    match lookupN w k with
    | Option.none => Option.none
    | some c =>
      match set_path_value c rest v with
      | Option.none => Option.none
      | some c2 => some (replaceAt w k c2)

/-- Embedding of the regex substitution `re.sub(r'[^a-zA-Z0-9 ]', '_', str(value))`:
`Char.isAlphanum` is exactly the ASCII classes `a-z`, `A-Z`, `0-9`. -/
def versionSanitize (s : String) : String :=
  String.mk (s.data.map (fun c => if c.isAlphanum || c == ' ' then c else '_'))

/-- Embedding of `process_value` (build_cwl_workflow.py): dispatch on the
final segment of the target path; only the version field is normalized. -/
def process_value (target : List Key) (value : CVal) : CVal :=
  match target.getLast? with
  | some (.str "s:version") => .s (versionSanitize (strOfCVal value))
  | _ => value

/-- Paths `p` such that `p ++ t = q` for some `t` (i.e. `p` leads into `q`). -/
def PathPre (p q : List Key) : Prop := ∃ t, p ++ t = q

/-- An entry of the configuration's `inputs` list, fields read with `.get`. -/
structure InputRecord where
  name : Option String
  type : Option String
  doc : Option String
  label : Option String
  default : Option CVal
deriving DecidableEq

/-- An entry of the configuration's `outputs` list (`doc`/`label` are read in
the source only as commented-out code). -/
structure OutputRecord where
  name : Option String
  type : Option String
deriving DecidableEq

/-- Embedding of `add_input_default` (build_cwl_workflow.py): `Directory` and
`File` defaults become `{class: <type>, path: <default>}`, everything else
passes through raw. -/
inductive DefVal where
  | classPath (cls : String) (path : CVal)
  | raw (v : CVal)
deriving DecidableEq

def add_input_default (input_type : Option String) (input_default : CVal) : DefVal :=
  match input_type with
  | some "Directory" => .classPath "Directory" input_default
  | some "File" => .classPath "File" input_default
  | _ => .raw input_default

/-- Workflow-level input declaration value (`workflow_tmp[input_name]`). -/
structure WfBinding where
  doc : Option String
  label : Option String
  type : Option String
  default : Option DefVal
deriving DecidableEq

/-- Process-level input binding value (`process_tmp[input_name]`): `position`
is `len(process_inputs) + 1` at creation time, `pfx` is the
`inputBinding.prefix` string `"--" + input_name`. -/
structure ProcBinding where
  type : Option String
  position : Nat
  pfx : String
  default : Option DefVal
deriving DecidableEq

/-- Python `f"--{input_name}"` renders a missing name as `None`. -/
def nameToStr : Option String → String
  | some s => s
  | Option.none => "None"

/-- The workflow-level entry built for one input record. -/
def mkWfEntry (r : InputRecord) : Option String × WfBinding :=
  (r.name, ⟨r.doc, r.label, r.type, r.default.map (add_input_default r.type)⟩)

/-- The process-level entry built for one input record, where `base` is the
number of process entries already accumulated (`len(process_inputs)`). -/
def mkProcEntry (base : Nat) (r : InputRecord) : Option String × ProcBinding :=
  (r.name, ⟨r.type, base + 1, "--" ++ nameToStr r.name, r.default.map (add_input_default r.type)⟩)

/-- The uniqueness-violation message raised on a duplicate input name. -/
def errDup (n : Option String) : String :=
  "Duplicate input parameter name \x27" ++ nameToStr n ++ "\x27. Input parameters must be unique."

/-- The `for input in config.get("inputs", [])` loop of `yaml_to_cwl`:
`seen` is `input_param_names`, the three accumulators are `workflow_inputs`,
`process_inputs` and `step_inputs` before the dict merges.  A name already in
`seen` (note: a missing name reads as `None` and is added to the set like any
other value) raises `ValueError`, modelled as `Except.error`. -/
def inputLoop (seen : List (Option String))
    (wfA : List (Option String × WfBinding))
    (procA : List (Option String × ProcBinding))
    (stepA : List (Option String × Option String)) :
    List InputRecord →
    Except String (List (Option String × WfBinding) ×
      List (Option String × ProcBinding) × List (Option String × Option String))
  | [] => .ok (wfA, procA, stepA)
  | r :: rest =>
    if r.name ∈ seen then .error (errDup r.name)
    else inputLoop (r.name :: seen) (wfA ++ [mkWfEntry r])
      (procA ++ [mkProcEntry procA.length r]) (stepA ++ [(r.name, r.name)]) rest

/-- The input projection of `yaml_to_cwl`, started from empty accumulators. -/
def projectInputs (inputs : List InputRecord) :
    Except String (List (Option String × WfBinding) ×
      List (Option String × ProcBinding) × List (Option String × Option String)) :=
  inputLoop [] [] [] [] inputs

/-- Workflow-level output declaration value: `{type, outputSource: "process/outputs_result"}`. -/
structure WfOutBinding where
  type : Option String
  outputSource : String
deriving DecidableEq

/-- Process-level output binding value: `{outputBinding: {glob: "./output*"}, type}`. -/
structure ProcOutBinding where
  glob : String
  type : Option String
deriving DecidableEq

/-- The `for output in config.get("outputs", [])` loop of `yaml_to_cwl`: one
workflow entry keyed by the record's name, one process entry under the fixed
key `"outputs_result"`, and one `"outputs_result"` step entry, per record. -/
def projectOutputs (outputs : List OutputRecord) :
    List (Option String × WfOutBinding) × List (String × ProcOutBinding) × List String :=
  (outputs.map (fun o => (o.name, ⟨o.type, "process/outputs_result"⟩)),
   outputs.map (fun o => ("outputs_result", ⟨"./output*", o.type⟩)),
   outputs.map (fun _ => "outputs_result"))

/-- Python dict assignment on an association list over any decidable key type
(used for the `{k: v for d in ... for k, v in d.items()}` merges). -/
def dictInsert {K V : Type} [DecidableEq K] (m : List (K × V)) (k : K) (v : V) :
    List (K × V) :=
  if m.any (fun p => p.1 = k) then m.map (fun p => if p.1 = k then (k, v) else p)
  else m ++ [(k, v)]

/-- The dict-comprehension merge of a list of single-entry dicts: sequential
insertion into an initially empty dict, later values overwriting earlier ones
at the same key. -/
def pyDictMerge {K V : Type} [DecidableEq K] (l : List (K × V)) : List (K × V) :=
  l.foldl (fun m p => dictInsert m p.1 p.2) []

/-- Flat configuration fields (everything `OGC_CWL_KEY_MAP` may look up). -/
def lookupField (fields : List (String × CVal)) (k : String) : Option CVal :=
  match fields with
  | [] => Option.none
  | p :: rest => if p.1 = k then some p.2 else lookupField rest k

/-- The static key map of `yaml_to_cwl`, in source (insertion) order. -/
def OGC_CWL_KEY_MAP : List (String × List (List Key)) :=
  [("algorithm_description", [[.str "$graph", .idx 0, .str "doc"]]),
   ("algorithm_name", [[.str "$graph", .idx 0, .str "label"], [.str "$graph", .idx 0, .str "id"]]),
   ("algorithm_version", [[.str "s:version"]]),
   ("author", [[.str "s:author", .idx 0, .str "s:name"]]),
   ("citation", [[.str "s:citation"]]),
   ("code_repository", [[.str "s:codeRepository"]]),
   ("contributor", [[.str "s:contributor", .idx 0, .str "s:name"]]),
   ("cores_min", [[.str "$graph", .idx 1, .str "requirements", .str "ResourceRequirement", .str "coresMin"]]),
   ("keywords", [[.str "s:keywords"]]),
   ("license", [[.str "s:license"]]),
   ("outdir_max", [[.str "$graph", .idx 1, .str "requirements", .str "ResourceRequirement", .str "outdirMax"]]),
   ("ram_min", [[.str "$graph", .idx 1, .str "requirements", .str "ResourceRequirement", .str "ramMin"]]),
   ("release_notes", [[.str "s:releaseNotes"]]),
   ("run_command", [[.str "$graph", .idx 1, .str "baseCommand"]])]

/-- Write one config value to each of its destination paths, normalizing per
target; a failed path write is the propagating KeyError. -/
def setTargets (tmpl : Node) (v : CVal) : List (List Key) → Except String Node
  | [] => .ok tmpl
  | t :: ts =>
    match set_path_value tmpl t (.leaf (process_value t v)) with
    | Option.none => .error "KeyError"
    | some t2 => setTargets t2 v ts

/-- The `for key in OGC_CWL_KEY_MAP` loop: present keys are written to every
target, absent keys only log a warning and are skipped. -/
def applyFieldMapper (fields : List (String × CVal)) :
    List (String × List (List Key)) → Node → Except String Node
  | [], tmpl => .ok tmpl
  | (key, targets) :: rest, tmpl =>
    match lookupField fields key with
    | some v =>
      match setTargets tmpl v targets with
      | .error e => .error e
      | .ok t2 => applyFieldMapper fields rest t2
    | Option.none => applyFieldMapper fields rest tmpl

/-- The Configuration Document (§3): flat fields plus the two record lists. -/
structure Config where
  fields : List (String × CVal)
  inputs : List InputRecord
  outputs : List OutputRecord

/-- Environment variables consumed by the builder, per §9 passed explicitly. -/
structure Env where
  dockerTag : Option String
  gitCommitHash : Option String
  workflowFileName : Option String

def optStrToCVal : Option String → CVal
  | some s => .s s
  | Option.none => .none

/-- The metadata stamping at the end of `yaml_to_cwl`: creation date, fixed
software version, `dockerPull` from `DOCKER_TAG`, commit hash from
`GIT_COMMIT_HASH` — direct subscript assignments on the workflow document,
each of which can raise KeyError when the template lacks the path. -/
def stamp (t : Node) (env : Env) (today : String) : Option Node := do
  let t1 ← set_path_value t [Key.str "s:dateCreated"] (Node.leaf (CVal.s today))
  let t2 ← set_path_value t1 [Key.str "s:softwareVersion"] (Node.leaf (CVal.s "1.0.0"))
  let t3 ← set_path_value t2
    [Key.str "$graph", Key.idx 1, Key.str "requirements", Key.str "DockerRequirement",
     Key.str "dockerPull"] (Node.leaf (optStrToCVal env.dockerTag))
  set_path_value t3 [Key.str "s:commitHash"] (Node.leaf (optStrToCVal env.gitCommitHash))

/-- The Output Workflow Document: the stamped template together with the six
projected structures grafted onto `$graph[0]` / `$graph[1]`, and the output
file name.  Constructed only when the whole run succeeds (the source writes
the file once, after all processing). -/
structure OutDoc where
  tmplStamped : Node
  wfInputs : List (Option String × WfBinding)
  procInputs : List (Option String × ProcBinding)
  stepInputs : List (Option String × Option String)
  wfOutputs : List (Option String × WfOutBinding)
  procOutputs : List (String × ProcOutBinding)
  stepOutputs : List String
  fileName : String

/-- Embedding of `yaml_to_cwl` after the two files are loaded: field mapping,
input projection (which can abort on a duplicate name), output projection,
dict merges, grafting, metadata stamping, and the final document that gets
serialized.  `Except.error` is an abort with no output file written. -/
def yaml_to_cwl (cfg : Config) (tmpl : Node) (env : Env) (today : String) :
    Except String OutDoc := do
  let t1 ← applyFieldMapper cfg.fields OGC_CWL_KEY_MAP tmpl
  let (wfL, procL, stepL) ← projectInputs cfg.inputs
  let (wfOL, procOL, stepOL) := projectOutputs cfg.outputs
  match stamp t1 env today with
  | Option.none => .error "KeyError"
  | some t2 =>
    .ok { tmplStamped := t2,
          wfInputs := pyDictMerge wfL,
          procInputs := pyDictMerge procL,
          stepInputs := pyDictMerge stepL,
          wfOutputs := pyDictMerge wfOL,
          procOutputs := pyDictMerge procOL,
          stepOutputs := stepOL,
          fileName := env.workflowFileName.getD "process.cwl" }

/-! ## Deployment collaborator (`deploy_app_pack.py`) -/

/-- JSON values, for the decoded body of an HTTP error response. -/
inductive Json where
  | null
  | jstr (s : String)
  | jnum (n : Int)
  | jarr (xs : List Json)
  | jobj (fields : List (String × Json))

/-- First-match field lookup in a decoded JSON object. -/
def lookupJ (kvs : List (String × Json)) (k : String) : Option Json :=
  match kvs with
  | [] => Option.none
  | p :: rest => if p.1 = k then some p.2 else lookupJ rest k

/-- Python `f"{...}"` rendering of a decoded JSON value (used to build the
PUT URL from `processID`). -/
def strOfJson : Json → String
  | .null => "None"
  | .jstr s => s
  | .jnum n => toString n
  | .jarr _ => "\x5b...\x5d"
  | .jobj _ => "\x7b...\x7d"

/-- The HTTP response the code observes: final status code, and the decoded
JSON body (`none` when `.json()` raises `ValueError`). -/
structure HttpResp where
  status : Nat
  body : Option Json

/-- Outcome of one `requests.post`/`requests.put` call: a response object, or
a transport-level exception (`RequestException`). -/
inductive HttpResult where
  | resp (r : HttpResp)
  | transErr

/-- The HTTP layer: the POST outcome and the PUT outcome per target URL. -/
structure World where
  postResult : HttpResult
  putResult : String → HttpResult

/-- Python exceptions that escape `submit_request` uncaught. -/
inductive PyExn where
  | attributeError
  | typeError
deriving DecidableEq

/-- `response.raise_for_status()` raises `HTTPError` exactly for 4xx/5xx. -/
def isHttpError (status : Nat) : Bool := 400 ≤ status && status < 600

/-- Embedding of `submit_request` (deploy_app_pack.py).  Result:
`.ok (b, puts)` when the function returns the boolean `b` after issuing the
PUT requests in `puts`; `.error e` when a Python exception escapes the
function (the `except` clauses catch `HTTPError` / `Exception` at the outer
level and `KeyError`, `RequestException`, `ValueError` in the 409 handler —
`r.get` on a non-object body raises `AttributeError` and subscripting a
non-object `additionalProperties` raises `TypeError`, neither of which is
caught there). -/
def submit_request (url : String) (w : World) : Except PyExn (Bool × List String) :=
  match w.postResult with
  | .transErr => .ok (false, [])
  | .resp r =>
    if isHttpError r.status then
      if r.status = 409 then
        match r.body with
        | Option.none => .ok (false, [])
        | some (Json.jobj kvs) =>
          match lookupJ kvs "additionalProperties" with
          | Option.none => .ok (false, [])
          | some (Json.jobj kvs2) =>
            match lookupJ kvs2 "processID" with
            | Option.none => .ok (false, [])
            | some pid =>
              let url2 := url ++ "/" ++ strOfJson pid
              match w.putResult url2 with
              | .transErr => .ok (false, [url2])
              | .resp r2 =>
                if isHttpError r2.status then .ok (false, [url2])
                else .ok (true, [url2])
          | some _ => .error .typeError
        | some _ => .error .attributeError
      else .ok (false, [])
    else .ok (true, [])

/-- Whether one HTTP call "succeeds" in the sense of `raise_for_status`: a
response arrived and its status is outside 400–599. -/
def httpOk : HttpResult → Bool
  | .transErr => false
  | .resp r => !isHttpError r.status

/-! ## Characterization helpers and concrete instances used by witnesses -/

/-- Expected workflow-level entries for a list of input records. -/
def wfEntries (l : List InputRecord) : List (Option String × WfBinding) :=
  l.map mkWfEntry

/-- Expected process-level entries starting from `base` prior entries. -/
def procEntries : Nat → List InputRecord → List (Option String × ProcBinding)
  | _, [] => []
  | base, r :: rest => mkProcEntry base r :: procEntries (base + 1) rest

/-- Expected step-level entries (identity passthrough name → name). -/
def stepEntries (l : List InputRecord) : List (Option String × Option String) :=
  l.map (fun r => (r.name, r.name))

/-- A two-record inputs list with a duplicated name. -/
def dupInputs : List InputRecord :=
  [⟨some "x", some "File", Option.none, Option.none, Option.none⟩,
   ⟨some "x", some "string", Option.none, Option.none, Option.none⟩]

/-- Two input records both missing `name` (and one missing `type`). -/
def noNameInputs : List InputRecord :=
  [⟨Option.none, some "string", Option.none, Option.none, Option.none⟩,
   ⟨Option.none, Option.none, Option.none, Option.none, Option.none⟩]

/-- Two well-formed input records, the second with a `File` default. -/
def twoInputs : List InputRecord :=
  [⟨some "alpha", some "string", some "d", Option.none, Option.none⟩,
   ⟨some "beta", some "File", Option.none, some "l", some (CVal.s "/data/a.tif")⟩]

/-- Two output records with distinct names and types. -/
def twoOutputs : List OutputRecord :=
  [⟨some "out1", some "File"⟩, ⟨some "out2", some "Directory"⟩]

/-- A minimal template carrying exactly the paths the metadata stamping
needs. -/
def tmpl0 : Node :=
  Node.dict
    [(Key.str "$graph",
      Node.arr
        [Node.dict [],
         Node.dict [(Key.str "requirements",
           Node.dict [(Key.str "DockerRequirement", Node.dict [])])]])]

/-- A configuration with no flat fields, one `File` input, no outputs. -/
def cfg0 : Config :=
  ⟨[], [⟨some "infile", some "File", Option.none, Option.none, Option.none⟩], []⟩

/-- An environment with every variable unset. -/
def env0 : Env := ⟨Option.none, Option.none, Option.none⟩

/-- The document `yaml_to_cwl cfg0 tmpl0 env0 "2026-10-12"` produces. -/
def doc0 : OutDoc :=
  { tmplStamped :=
      Node.dict
        [(Key.str "$graph",
          Node.arr
            [Node.dict [],
             Node.dict [(Key.str "requirements",
               Node.dict [(Key.str "DockerRequirement",
                 Node.dict [(Key.str "dockerPull", Node.leaf CVal.none)])])]]),
         (Key.str "s:dateCreated", Node.leaf (CVal.s "2026-10-12")),
         (Key.str "s:softwareVersion", Node.leaf (CVal.s "1.0.0")),
         (Key.str "s:commitHash", Node.leaf CVal.none)],
    wfInputs := [(some "infile", ⟨Option.none, Option.none, some "File", Option.none⟩)],
    procInputs := [(some "infile", ⟨some "File", 1, "--infile", Option.none⟩)],
    stepInputs := [(some "infile", some "infile")],
    wfOutputs := [],
    procOutputs := [],
    stepOutputs := [],
    fileName := "process.cwl" }

/-- A document and path for the out-of-range final list index. -/
def oobDoc : Node := Node.dict [(Key.str "a", Node.arr [Node.leaf (CVal.s "x")])]

/-- A small document for the successful path-write witness. -/
def spvDoc : Node := Node.dict [(Key.str "a", Node.dict [])]

/-- World whose POST yields HTTP 302 and whose PUT always fails. -/
def world302 : World := ⟨.resp ⟨302, Option.none⟩, fun _ => .transErr⟩

/-- World whose POST yields HTTP 500. -/
def world500 : World := ⟨.resp ⟨500, Option.none⟩, fun _ => .transErr⟩

/-- World whose POST yields HTTP 409 with a well-formed body naming process
`p123`, and whose PUT succeeds with HTTP 200. -/
def world409 : World :=
  ⟨.resp ⟨409, some (Json.jobj
      [("detail", Json.jstr "exists"),
       ("additionalProperties", Json.jobj [("processID", Json.jstr "p123")])])⟩,
   fun _ => .resp ⟨200, Option.none⟩⟩

/-- World whose POST yields HTTP 409 with a JSON *array* body. -/
def world409arr : World := ⟨.resp ⟨409, some (Json.jarr [])⟩, fun _ => .transErr⟩

/-! ## Lemmas about the input loop -/

theorem inputLoop_ok_char :
    ∀ (l : List InputRecord) (seen : List (Option String)) wfA procA stepA wf proc step,
    inputLoop seen wfA procA stepA l = .ok (wf, proc, step) →
    wf = wfA ++ wfEntries l ∧ proc = procA ++ procEntries procA.length l ∧
      step = stepA ++ stepEntries l := by
  intro l
  induction l with
  | nil =>
    intro seen wfA procA stepA wf proc step h
    simp only [inputLoop, Except.ok.injEq, Prod.mk.injEq] at h
    obtain ⟨h1, h2, h3⟩ := h
    simp [wfEntries, stepEntries, procEntries, h1.symm, h2.symm, h3.symm]
  | cons r rest ih =>
    intro seen wfA procA stepA wf proc step h
    by_cases hm : r.name ∈ seen
    · simp [inputLoop, hm] at h
    · simp only [inputLoop, if_neg hm] at h
      obtain ⟨h1, h2, h3⟩ := ih _ _ _ _ _ _ _ h
      refine ⟨?_, ?_, ?_⟩
      · simp [h1, wfEntries]
      · simp [h2, procEntries]
      · simp [h3, stepEntries]

theorem inputLoop_ok_nodup :
    ∀ (l : List InputRecord) (seen : List (Option String)) wfA procA stepA t,
    inputLoop seen wfA procA stepA l = .ok t →
    (l.map (·.name)).Nodup ∧ ∀ n ∈ l.map (·.name), n ∉ seen := by
  intro l
  induction l with
  | nil => intro seen wfA procA stepA t _; simp
  | cons r rest ih =>
    intro seen wfA procA stepA t h
    by_cases hm : r.name ∈ seen
    · simp [inputLoop, hm] at h
    · simp only [inputLoop, if_neg hm] at h
      obtain ⟨hn, hs⟩ := ih _ _ _ _ _ h
      refine ⟨?_, ?_⟩
      · rw [List.map_cons, List.nodup_cons]
        refine ⟨fun hmem => (hs _ hmem) (by simp), hn⟩
      · intro n hnmem
        rw [List.map_cons, List.mem_cons] at hnmem
        rcases hnmem with hnmem | hnmem
        · exact hnmem ▸ hm
        · intro hnseen
          exact (hs _ hnmem) (List.mem_cons_of_mem _ hnseen)

theorem inputLoop_nodup_ok :
    ∀ (l : List InputRecord) (seen : List (Option String)) wfA procA stepA,
    (∀ n ∈ l.map (·.name), n ∉ seen) → (l.map (·.name)).Nodup →
    ∃ t, inputLoop seen wfA procA stepA l = .ok t := by
  intro l
  induction l with
  | nil => intro seen wfA procA stepA _ _; exact ⟨_, rfl⟩
  | cons r rest ih =>
    intro seen wfA procA stepA hdis hnd
    have hm : r.name ∉ seen := hdis _ (by simp)
    rw [List.map_cons, List.nodup_cons] at hnd
    obtain ⟨hhead, hrest⟩ := hnd
    have hdis2 : ∀ n ∈ rest.map (·.name), n ∉ (r.name :: seen) := by
      intro n hn
      rw [List.mem_cons]
      push_neg
      exact ⟨fun he => hhead (he ▸ hn), hdis _ (List.mem_cons_of_mem _ hn)⟩
    obtain ⟨t, ht⟩ := ih (r.name :: seen) (wfA ++ [mkWfEntry r])
      (procA ++ [mkProcEntry procA.length r]) (stepA ++ [(r.name, r.name)]) hdis2 hrest
    exact ⟨t, by simp only [inputLoop, if_neg hm]; exact ht⟩

theorem procEntries_getElem? :
    ∀ (l : List InputRecord) (base i : Nat),
    (procEntries base l)[i]? = l[i]?.map (fun r => mkProcEntry (base + i) r) := by
  intro l
  induction l with
  | nil => intro base i; simp [procEntries]
  | cons r rest ih =>
    intro base i
    cases i with
    | zero => simp [procEntries]
    | succ n =>
      simp only [procEntries, List.getElem?_cons_succ, ih (base + 1) n]
      have : base + 1 + n = base + (n + 1) := by omega
      rw [this]

theorem procEntries_keys :
    ∀ (l : List InputRecord) (base : Nat),
    (procEntries base l).map Prod.fst = l.map (·.name) := by
  intro l
  induction l with
  | nil => intro base; rfl
  | cons r rest ih => intro base; simp [procEntries, mkProcEntry, ih]

/-! ## Lemmas about the dict-comprehension merges -/

theorem foldl_dictInsert_nodup {K V : Type} [DecidableEq K] :
    ∀ (l m : List (K × V)), ((m ++ l).map Prod.fst).Nodup →
    l.foldl (fun acc p => dictInsert acc p.1 p.2) m = m ++ l := by
  intro l
  induction l with
  | nil => intro m _; simp
  | cons p rest ih =>
    intro m h
    have hdisj : p.1 ∉ m.map Prod.fst := by
      rw [List.map_append, List.nodup_append] at h
      exact fun hmem => h.2.2 hmem (by simp)
    have hany : m.any (fun q => q.1 = p.1) = false := by
      rw [List.any_eq_false]
      intro q hq
      simp only [decide_eq_true_eq]
      exact fun he => hdisj (he ▸ List.mem_map_of_mem Prod.fst hq)
    have hins : dictInsert m p.1 p.2 = m ++ [p] := by
      simp [dictInsert, hany]
    rw [List.foldl_cons, hins]
    have h2 : (((m ++ [p]) ++ rest).map Prod.fst).Nodup := by
      rw [List.append_assoc]
      simpa using h
    have := ih (m ++ [p]) h2
    rw [this, List.append_assoc]
    rfl

theorem pyDictMerge_nodup {K V : Type} [DecidableEq K]
    (l : List (K × V)) (h : (l.map Prod.fst).Nodup) : pyDictMerge l = l := by
  have := foldl_dictInsert_nodup l [] (by simpa using h)
  simpa [pyDictMerge] using this

theorem foldl_dictInsert_const {K V : Type} [DecidableEq K] :
    ∀ (l : List (K × V)) (k : K) (v : V), (∀ p ∈ l, p.1 = k) →
    l.foldl (fun acc p => dictInsert acc p.1 p.2) [(k, v)] =
      [(k, (l.map Prod.snd).getLastD v)] := by
  intro l
  induction l with
  | nil => intro k v _; rfl
  | cons p rest ih =>
    intro k v hall
    have hk : p.1 = k := hall p (by simp)
    have hins : dictInsert [(k, v)] p.1 p.2 = [(k, p.2)] := by
      simp [dictInsert, hk]
    rw [List.foldl_cons, hins]
    have := ih k p.2 (fun q hq => hall q (List.mem_cons_of_mem _ hq))
    rw [this, List.map_cons, List.getLastD_cons]

theorem getLastD_map {α β : Type} (g : α → β) :
    ∀ (l : List α) (d : α), (l.map g).getLastD (g d) = g (l.getLastD d) := by
  intro l
  induction l with
  | nil => intro d; rfl
  | cons a t ih => intro d; rw [List.map_cons, List.getLastD_cons, List.getLastD_cons]; exact ih a

theorem getLast?_cons_getLastD {α : Type} (a : α) (l : List α) :
    (a :: l).getLast? = some (l.getLastD a) := by
  induction l generalizing a with
  | nil => rfl
  | cons b t ih => rw [List.getLastD_cons]; exact ih b

theorem procEntries_length :
    ∀ (l : List InputRecord) (base : Nat), (procEntries base l).length = l.length := by
  intro l
  induction l with
  | nil => intro base; rfl
  | cons r rest ih => intro base; simp [procEntries, ih]

theorem inputLoop_error_shape :
    ∀ (l : List InputRecord) (seen : List (Option String)) wfA procA stepA msg,
    inputLoop seen wfA procA stepA l = .error msg → ∃ n, msg = errDup n := by
  intro l
  induction l with
  | nil => intro seen wfA procA stepA msg h; simp [inputLoop] at h
  | cons r rest ih =>
    intro seen wfA procA stepA msg h
    by_cases hm : r.name ∈ seen
    · simp only [inputLoop, if_pos hm, Except.error.injEq] at h
      exact ⟨r.name, h.symm⟩
    · simp only [inputLoop, if_neg hm] at h
      exact ih _ _ _ _ _ h

/-- Inversion of a successful `yaml_to_cwl` run: the field mapper succeeded,
the input projection succeeded, and the document's grafted input structures
are the dict merges of the projected lists. -/
theorem yaml_to_cwl_ok_inv (cfg : Config) (tmpl : Node) (env : Env) (today : String)
    (doc : OutDoc) (h : yaml_to_cwl cfg tmpl env today = .ok doc) :
    ∃ t1 wfL procL stepL,
      applyFieldMapper cfg.fields OGC_CWL_KEY_MAP tmpl = .ok t1 ∧
      projectInputs cfg.inputs = .ok (wfL, procL, stepL) ∧
      doc.wfInputs = pyDictMerge wfL ∧ doc.procInputs = pyDictMerge procL ∧
      doc.stepInputs = pyDictMerge stepL := by
  unfold yaml_to_cwl at h
  cases hfm : applyFieldMapper cfg.fields OGC_CWL_KEY_MAP tmpl with
  | error e => rw [hfm] at h; simp [Bind.bind, Except.bind] at h
  | ok t1 =>
    rw [hfm] at h
    cases hpi : projectInputs cfg.inputs with
    | error e => rw [hpi] at h; simp [Bind.bind, Except.bind] at h
    | ok trip =>
      obtain ⟨wfL, procL, stepL⟩ := trip
      rw [hpi] at h
      simp only [Bind.bind, Except.bind] at h
      cases hst : stamp t1 env today with
      | none => rw [hst] at h; simp at h
      | some t2 =>
        rw [hst] at h
        simp only [Except.ok.injEq] at h
        exact ⟨t1, wfL, procL, stepL, rfl, rfl, by rw [← h], by rw [← h], by rw [← h]⟩

/-- C1: for a configuration whose inputs carry `N` unique names, the merged
process-level input bindings list the `N` names in encounter order, with
`inputBinding.position` equal to `i + 1` at index `i` and prefix string
`"--" ++ name`. -/
theorem input_binding_positions (inputs : List InputRecord)
    (hsome : ∀ r ∈ inputs, r.name.isSome)
    (hnd : (inputs.map (·.name)).Nodup) :
    ∃ wf proc step, projectInputs inputs = .ok (wf, proc, step) ∧
      (pyDictMerge proc).length = inputs.length ∧
      ∀ i : Nat, ((pyDictMerge proc)[i]?.map (fun p => (p.1, p.2.position, p.2.pfx))) =
        (inputs[i]?.map (fun r => (r.name, i + 1, "--" ++ nameToStr r.name))) := by
  obtain ⟨⟨wf, proc, step⟩, ht⟩ := inputLoop_nodup_ok inputs [] [] [] [] (by simp) hnd
  obtain ⟨h1, h2, h3⟩ := inputLoop_ok_char inputs [] [] [] [] wf proc step ht
  have hproc : proc = procEntries 0 inputs := by simpa using h2
  have hkeys : (proc.map Prod.fst).Nodup := by rw [hproc, procEntries_keys]; exact hnd
  have hmerge : pyDictMerge proc = proc := pyDictMerge_nodup proc hkeys
  refine ⟨wf, proc, step, ht, ?_, ?_⟩
  · rw [hmerge, hproc, procEntries_length]
  · intro i
    rw [hmerge, hproc, procEntries_getElem?]
    cases hi : inputs[i]? with
    | none => rfl
    | some r => simp [mkProcEntry]

/-- C2: a configuration whose inputs list holds two records with the same
name makes the input projection abort with the uniqueness `ValueError`, and
no run over such a configuration can ever reach the point where the output
document is produced. -/
theorem duplicate_name_aborts (inputs : List InputRecord) (i j : Nat)
    (ri rj : InputRecord) (hij : i ≠ j)
    (hi : inputs[i]? = some ri) (hj : inputs[j]? = some rj)
    (hname : ri.name = rj.name) :
    (∃ n, projectInputs inputs = .error (errDup n)) ∧
    ∀ (cfg : Config) (tmpl : Node) (env : Env) (today : String), cfg.inputs = inputs →
      ∀ doc : OutDoc, yaml_to_cwl cfg tmpl env today ≠ .ok doc := by
  have hnotnd : ¬ (inputs.map (·.name)).Nodup := by
    intro hnd
    have h1 : (inputs.map (·.name))[i]? = some ri.name := by
      rw [List.getElem?_map, hi]; rfl
    have h2 : (inputs.map (·.name))[j]? = some rj.name := by
      rw [List.getElem?_map, hj]; rfl
    have hlen : i < (inputs.map (·.name)).length := by
      rw [List.length_map]
      exact List.getElem?_eq_some_iff.mp hi |>.1
    exact hij (List.getElem?_inj hlen hnd (by rw [h1, h2, hname]))
  have herr : ∀ t, projectInputs inputs ≠ .ok t := by
    intro t hok
    exact hnotnd (inputLoop_ok_nodup inputs [] [] [] [] t hok).1
  constructor
  · cases hp : projectInputs inputs with
    | error msg =>
      obtain ⟨n, hn⟩ := inputLoop_error_shape inputs [] [] [] [] msg hp
      exact ⟨n, by rw [hn]⟩
    | ok t => exact absurd hp (herr t)
  · intro cfg tmpl env today hcfg doc hok
    obtain ⟨t1, wfL, procL, stepL, _, hpi, _⟩ := yaml_to_cwl_ok_inv cfg tmpl env today doc hok
    rw [hcfg] at hpi
    exact herr _ hpi

/-- C4: in both the workflow-level and process-level input bindings, the
`default` entry is absent exactly when the record has no default, and a
present default is shaped by `add_input_default`: `{class, path}` for `File`
and `Directory` types, the raw value for every other type. -/
theorem input_default_shaping :
    (∀ (inputs : List InputRecord) wf proc step,
      projectInputs inputs = .ok (wf, proc, step) →
      ∀ i : Nat,
        (wf[i]?.map (fun p => p.2.default)) =
          (inputs[i]?.map (fun r => r.default.map (add_input_default r.type))) ∧
        (proc[i]?.map (fun p => p.2.default)) =
          (inputs[i]?.map (fun r => r.default.map (add_input_default r.type)))) ∧
    (∀ d, add_input_default (some "File") d = .classPath "File" d) ∧
    (∀ d, add_input_default (some "Directory") d = .classPath "Directory" d) ∧
    (∀ t d, t ≠ some "File" → t ≠ some "Directory" → add_input_default t d = .raw d) := by
  refine ⟨?_, fun d => rfl, fun d => rfl, ?_⟩
  · intro inputs wf proc step h i
    obtain ⟨h1, h2, _⟩ := inputLoop_ok_char inputs [] [] [] [] wf proc step h
    have hproc : proc = procEntries 0 inputs := by simpa using h2
    constructor
    · rw [h1]
      simp only [List.nil_append, wfEntries, List.getElem?_map]
      cases inputs[i]? with
      | none => rfl
      | some r => rfl
    · rw [hproc, procEntries_getElem?]
      cases inputs[i]? with
      | none => rfl
      | some r => rfl
  · intro t d h1 h2
    unfold add_input_default
    split
    · exact absurd rfl h2
    · exact absurd rfl h1
    · rfl

/-- C7: every successful run maps the configuration's input names, in
encounter order and unrenamed, to the keys of the generated document's
`$graph[0].inputs`, and the step-level bindings send each name to itself. -/
theorem graph0_input_keys_roundtrip (cfg : Config) (tmpl : Node) (env : Env)
    (today : String) (doc : OutDoc)
    (hok : yaml_to_cwl cfg tmpl env today = .ok doc)
    (hsome : ∀ r ∈ cfg.inputs, r.name.isSome)
    (hnd : (cfg.inputs.map (·.name)).Nodup) :
    doc.wfInputs.map Prod.fst = cfg.inputs.map (·.name) ∧
    doc.stepInputs = cfg.inputs.map (fun r => (r.name, r.name)) := by
  obtain ⟨t1, wfL, procL, stepL, _, hpi, hwf, hproc, hstep⟩ :=
    yaml_to_cwl_ok_inv cfg tmpl env today doc hok
  obtain ⟨h1, _, h3⟩ := inputLoop_ok_char cfg.inputs [] [] [] [] wfL procL stepL hpi
  have hkeys : wfL.map Prod.fst = cfg.inputs.map (·.name) := by
    rw [h1]
    simp [wfEntries, mkWfEntry]
  have hm : pyDictMerge wfL = wfL := pyDictMerge_nodup wfL (hkeys ▸ hnd)
  have hkeys2 : stepL.map Prod.fst = cfg.inputs.map (·.name) := by
    rw [h3]
    simp [stepEntries]
  have hms : pyDictMerge stepL = stepL := pyDictMerge_nodup stepL (hkeys2 ▸ hnd)
  constructor
  · rw [hwf, hm, hkeys]
  · rw [hstep, hms, h3]
    simp [stepEntries]

/-- C6 (amended), counterexample part is separate: records missing `name` or
`type` do not halt the input projection as long as the (possibly `None`)
names stay pairwise distinct, and the output loop completes for every
outputs list. -/
theorem missing_fields_warn_only (inputs : List InputRecord)
    (hnd : (inputs.map (·.name)).Nodup) :
    (∃ wf proc step, projectInputs inputs = .ok (wf, proc, step)) ∧
    ∀ outs : List OutputRecord, (projectOutputs outs).2.2.length = outs.length := by
  constructor
  · obtain ⟨⟨wf, proc, step⟩, ht⟩ := inputLoop_nodup_ok inputs [] [] [] [] (by simp) hnd
    exact ⟨wf, proc, step, ht⟩
  · intro outs
    simp [projectOutputs]

/-- C6 counterexample: two input records that are both missing `name` (the
second also missing `type`) abort the run with the duplicate-name
`ValueError` — the missing names collide as `None` — contradicting the claim
that a missing name or type never halts the run. -/
theorem missing_name_collision_cex :
    projectInputs noNameInputs = .error (errDup Option.none) ∧
    noNameInputs[0]?.map (·.name) = some Option.none ∧
    noNameInputs[1]?.map (·.name) = some Option.none ∧
    noNameInputs[1]?.map (·.type) = some Option.none :=
  ⟨rfl, rfl, rfl, rfl⟩

/-- C3: for a non-empty outputs list, the merged process-level output map
holds the single fixed key `"outputs_result"`, bound to the glob
`"./output*"` and the type of the LAST output record (earlier bindings are
overwritten), while the step-level output list repeats the literal
`"outputs_result"` once per record. -/
theorem output_last_record_wins (outputs : List OutputRecord) (o : OutputRecord)
    (os : List OutputRecord) (h : outputs = o :: os) :
    ∃ last, outputs.getLast? = some last ∧
      pyDictMerge (projectOutputs outputs).2.1 =
        [("outputs_result", ⟨"./output*", last.type⟩)] ∧
      (projectOutputs outputs).2.2 = List.replicate outputs.length "outputs_result" := by
  subst h
  refine ⟨os.getLastD o, getLast?_cons_getLastD o os, ?_, ?_⟩
  · have h0 : pyDictMerge ((projectOutputs (o :: os)).2.1) =
        (os.map (fun q => ("outputs_result", (⟨"./output*", q.type⟩ : ProcOutBinding)))).foldl
          (fun m p => dictInsert m p.1 p.2)
          [("outputs_result", (⟨"./output*", o.type⟩ : ProcOutBinding))] := rfl
    rw [h0, foldl_dictInsert_const _ _ _ (by simp)]
    have h1 : (os.map (fun q =>
          ("outputs_result", (⟨"./output*", q.type⟩ : ProcOutBinding)))).map Prod.snd =
        os.map (fun q => (⟨"./output*", q.type⟩ : ProcOutBinding)) := by
      rw [List.map_map]; rfl
    rw [h1, getLastD_map (fun q : OutputRecord => (⟨"./output*", q.type⟩ : ProcOutBinding)) os o]
  · simp [projectOutputs, List.eq_replicate_iff]

/-- C5: the Value Normalizer rewrites every character outside the classes
`A-Z`, `a-z`, `0-9` and space to `_` when the destination path's final key is
the version field `s:version`, and returns the value unchanged for every
other final key. -/
theorem process_value_version_rule :
    (∀ (target : List Key) (v : CVal),
      target.getLast? = some (Key.str "s:version") →
      process_value target v =
        CVal.s (String.mk ((strOfCVal v).data.map (fun c =>
          if ('A' ≤ c ∧ c ≤ 'Z') ∨ ('a' ≤ c ∧ c ≤ 'z') ∨ ('0' ≤ c ∧ c ≤ '9') ∨ c = ' '
          then c else '_')))) ∧
    (∀ (target : List Key) (v : CVal),
      target.getLast? ≠ some (Key.str "s:version") → process_value target v = v) := by
  have hiff : ∀ c : Char, (c.isAlphanum || c == ' ') = true ↔
      (('A' ≤ c ∧ c ≤ 'Z') ∨ ('a' ≤ c ∧ c ≤ 'z') ∨ ('0' ≤ c ∧ c ≤ '9') ∨ c = ' ') := by
    intro c
    simp only [Char.isAlphanum, Char.isAlpha, Char.isDigit, Char.isUpper, Char.isLower,
      Bool.or_eq_true, beq_iff_eq, decide_eq_true_eq, Char.le_def, Char.ext_iff,
      ge_iff_le, Bool.and_eq_true]
    have h65 : ('A').val = 65 := rfl
    have h90 : ('Z').val = 90 := rfl
    have h97 : ('a').val = 97 := rfl
    have h122 : ('z').val = 122 := rfl
    have h48 : ('0').val = 48 := rfl
    have h57 : ('9').val = 57 := rfl
    rw [h65, h90, h97, h122, h48, h57]
    tauto
  have hclass : ∀ c : Char, (if c.isAlphanum || c == ' ' then c else '_') =
      (if ('A' ≤ c ∧ c ≤ 'Z') ∨ ('a' ≤ c ∧ c ≤ 'z') ∨ ('0' ≤ c ∧ c ≤ '9') ∨ c = ' '
       then c else '_') := by
    intro c
    by_cases h : ('A' ≤ c ∧ c ≤ 'Z') ∨ ('a' ≤ c ∧ c ≤ 'z') ∨ ('0' ≤ c ∧ c ≤ '9') ∨ c = ' '
    · rw [if_pos h, if_pos ((hiff c).mpr h)]
    · rw [if_neg h, if_neg (fun hb => h ((hiff c).mp hb))]
  constructor
  · intro target v hlast
    unfold process_value
    rw [hlast]
    show CVal.s (versionSanitize (strOfCVal v)) = _
    unfold versionSanitize
    rw [List.map_congr_left (fun c _ => hclass c)]
  · intro target v hlast
    unfold process_value
    split
    · rename_i heq; exact absurd heq hlast
    · rfl

/-! ## Lemmas about `set_path_value` -/

theorem lookupKV_mapReplace_self :
    ∀ (kvs : List (Key × Node)) (k : Key) (x : Node) (c0 : Node),
    lookupKV kvs k = some c0 →
    lookupKV (kvs.map (fun p => if p.1 = k then (k, x) else p)) k = some x := by
  intro kvs
  induction kvs with
  | nil => intro k x c0 h; simp [lookupKV] at h
  | cons p rest ih =>
    intro k x c0 h
    by_cases hp : p.1 = k
    · simp [lookupKV, hp]
    · rw [List.map_cons, if_neg hp]
      rw [lookupKV, if_neg hp] at h ⊢
      exact ih k x c0 h

theorem lookupKV_mapReplace_ne :
    ∀ (kvs : List (Key × Node)) (k : Key) (x : Node) (k' : Key), k' ≠ k →
    lookupKV (kvs.map (fun p => if p.1 = k then (k, x) else p)) k' = lookupKV kvs k' := by
  intro kvs
  induction kvs with
  | nil => intro k x k' _; rfl
  | cons p rest ih =>
    intro k x k' hne
    by_cases hp : p.1 = k
    · rw [List.map_cons, if_pos hp]
      rw [lookupKV, lookupKV, if_neg (fun he : k = k' => hne he.symm), if_neg]
      · exact ih k x k' hne
      · rw [hp]; exact fun he => hne he.symm
    · rw [List.map_cons, if_neg hp]
      rw [lookupKV, lookupKV]
      by_cases hp' : p.1 = k'
      · rw [if_pos hp', if_pos hp']
      · rw [if_neg hp', if_neg hp']
        exact ih k x k' hne

theorem lookupKV_append_last :
    ∀ (kvs : List (Key × Node)) (k : Key) (v : Node),
    kvs.any (fun p => p.1 = k) = false →
    lookupKV (kvs ++ [(k, v)]) k = some v := by
  intro kvs
  induction kvs with
  | nil => intro k v _; simp [lookupKV]
  | cons p rest ih =>
    intro k v hany
    rw [List.any_cons, Bool.or_eq_false_iff] at hany
    have hp : p.1 ≠ k := by simpa using hany.1
    rw [List.cons_append, lookupKV, if_neg hp]
    exact ih k v hany.2

theorem lookupKV_append_ne :
    ∀ (kvs : List (Key × Node)) (k : Key) (v : Node) (k' : Key), k' ≠ k →
    lookupKV (kvs ++ [(k, v)]) k' = lookupKV kvs k' := by
  intro kvs
  induction kvs with
  | nil => intro k v k' hne; simp [lookupKV, if_neg (fun he : k = k' => hne he.symm)]
  | cons p rest ih =>
    intro k v k' hne
    rw [List.cons_append, lookupKV, lookupKV]
    by_cases hp : p.1 = k'
    · rw [if_pos hp, if_pos hp]
    · rw [if_neg hp, if_neg hp]
      exact ih k v k' hne

theorem lookupKV_any :
    ∀ (kvs : List (Key × Node)) (k : Key),
    kvs.any (fun p => p.1 = k) = true ↔ ∃ c0, lookupKV kvs k = some c0 := by
  intro kvs
  induction kvs with
  | nil => intro k; simp [lookupKV]
  | cons p rest ih =>
    intro k
    rw [List.any_cons, Bool.or_eq_true, lookupKV]
    by_cases hp : p.1 = k
    · simp [hp]
    · simp only [if_neg hp, decide_eq_true_eq]
      rw [ih k]
      simp [hp]

theorem lookupKV_dictAssign_self (kvs : List (Key × Node)) (k : Key) (v : Node) :
    lookupKV (dictAssign kvs k v) k = some v := by
  unfold dictAssign
  by_cases hany : kvs.any (fun p => p.1 = k) = true
  · rw [if_pos hany]
    obtain ⟨c0, hc0⟩ := (lookupKV_any kvs k).mp hany
    exact lookupKV_mapReplace_self kvs k v c0 hc0
  · rw [if_neg hany]
    exact lookupKV_append_last kvs k v (Bool.eq_false_iff.mpr hany)

theorem lookupKV_dictAssign_ne (kvs : List (Key × Node)) (k : Key) (v : Node)
    (k' : Key) (hne : k' ≠ k) :
    lookupKV (dictAssign kvs k v) k' = lookupKV kvs k' := by
  unfold dictAssign
  by_cases hany : kvs.any (fun p => p.1 = k) = true
  · rw [if_pos hany]
    exact lookupKV_mapReplace_ne kvs k v k' hne
  · rw [if_neg hany]
    exact lookupKV_append_ne kvs k v k' hne

/-- A successful single write: the written key reads back the new value and
every other key reads as before. -/
theorem setIn_spec (w : Node) (k : Key) (v : Node) (hw : writable w k = true) :
    ∃ r, setIn w k v = some r ∧ lookupN r k = some v ∧
      ∀ k', k' ≠ k → lookupN r k' = lookupN w k' := by
  cases w with
  | leaf c => simp [writable] at hw
  | dict kvs =>
    refine ⟨.dict (dictAssign kvs k v), rfl, ?_, ?_⟩
    · exact lookupKV_dictAssign_self kvs k v
    · intro k' hne
      exact lookupKV_dictAssign_ne kvs k v k' hne
  | arr xs =>
    cases k with
    | str s => simp [writable] at hw
    | idx n =>
      have hn : n < xs.length := by simpa [writable] using hw
      refine ⟨.arr (xs.set n v), by simp [setIn, hn], ?_, ?_⟩
      · simpa [lookupN] using List.getElem?_set_self (by simpa using hn)
      · intro k' hne
        cases k' with
        | str s => rfl
        | idx m =>
          have hm : m ≠ n := fun he => hne (by rw [he])
          simpa [lookupN] using List.getElem?_set_ne hm.symm

/-- Replacing the child at an existing key: reads of that key see the new
child, reads of any other key are unchanged. -/
theorem replaceAt_spec (w : Node) (k : Key) (c0 c : Node)
    (h : lookupN w k = some c0) :
    lookupN (replaceAt w k c) k = some c ∧
      ∀ k', k' ≠ k → lookupN (replaceAt w k c) k' = lookupN w k' := by
  cases w with
  | leaf v => simp [lookupN] at h
  | dict kvs =>
    refine ⟨lookupKV_mapReplace_self kvs k c c0 h, ?_⟩
    intro k' hne
    exact lookupKV_mapReplace_ne kvs k c k' hne
  | arr xs =>
    cases k with
    | str s => simp [lookupN] at h
    | idx n =>
      have hn : n < xs.length := by
        simp only [lookupN] at h
        exact List.getElem?_eq_some_iff.mp h |>.1
      refine ⟨?_, ?_⟩
      · simpa [replaceAt, lookupN] using List.getElem?_set_self (by simpa using hn)
      · intro k' hne
        cases k' with
        | str s => rfl
        | idx m =>
          have hm : m ≠ n := fun he => hne (by rw [he])
          simpa [replaceAt, lookupN] using List.getElem?_set_ne hm.symm

theorem pathPre_cons (a : Key) (p q : List Key) :
    PathPre (a :: p) (a :: q) ↔ PathPre p q := by
  constructor
  · rintro ⟨t, ht⟩
    exact ⟨t, by injection ht⟩
  · rintro ⟨t, ht⟩
    exact ⟨t, by rw [List.cons_append, ht]⟩

theorem set_path_value_cons (w : Node) (k0 : Key) (rest : List Key)
    (hne : rest ≠ []) (v : Node) :
    set_path_value w (k0 :: rest) v =
      match lookupN w k0 with
      | Option.none => Option.none
      | some c =>
        match set_path_value c rest v with
        | Option.none => Option.none
        | some c2 => some (replaceAt w k0 c2) := by
  cases rest with
  | nil => exact absurd rfl hne
  | cons a t => rfl

/-- A write the final container rejects (scalar target, string key or
out-of-range index into a sequence) fails. -/
theorem setIn_none_of_not_writable (w : Node) (k : Key) (v : Node)
    (hw : writable w k = false) : setIn w k v = Option.none := by
  cases w with
  | leaf c => rfl
  | dict kvs => simp [writable] at hw
  | arr xs =>
    cases k with
    | str s => rfl
    | idx n =>
      have hn : ¬ n < xs.length := by simpa [writable] using hw
      simp [setIn, hn]

/-- C8 (amended): if every intermediate segment of the path exists, and the
final container accepts the final segment (a mapping accepts any key, a
sequence only an in-range index, a scalar none), `set_path_value` writes the
value — the full path reads back the value, and every path diverging from it
reads exactly as before; if some intermediate segment does not exist, it
fails with a lookup error; and if the intermediates exist but the final
container rejects the final segment (e.g. an out-of-range list index), it
also fails. -/
theorem set_path_value_correct :
    (∀ (ks : List Key) (w c : Node) (k : Key) (v : Node),
      descend w ks = some c → writable c k = true →
      ∃ r, set_path_value w (ks ++ [k]) v = some r ∧
        descend r (ks ++ [k]) = some v ∧
        ∀ q, ¬ PathPre (ks ++ [k]) q → ¬ PathPre q (ks ++ [k]) →
          descend r q = descend w q) ∧
    (∀ (ks : List Key) (w : Node) (k : Key) (v : Node),
      descend w ks = Option.none → set_path_value w (ks ++ [k]) v = Option.none) ∧
    (∀ (ks : List Key) (w c : Node) (k : Key) (v : Node),
      descend w ks = some c → writable c k = false →
      set_path_value w (ks ++ [k]) v = Option.none) := by
  refine ⟨?_, ?_, ?_⟩
  · intro ks
    induction ks with
    | nil =>
      intro w c k v hd hw
      simp only [descend, Option.some.injEq] at hd
      subst hd
      obtain ⟨r, hr, hl, ho⟩ := setIn_spec w k v hw
      refine ⟨r, ?_, ?_, ?_⟩
      · simpa [set_path_value] using hr
      · simp only [List.nil_append, descend, hl]
      · intro q hq1 hq2
        cases q with
        | nil => exact absurd ⟨[k], rfl⟩ hq2
        | cons k' q' =>
          by_cases hk : k' = k
          · subst hk
            exact absurd ⟨q', rfl⟩ hq1
          · simp only [descend, ho k' hk]
    | cons k0 ks' ih =>
      intro w c k v hd hw
      simp only [descend] at hd
      cases hl : lookupN w k0 with
      | none => rw [hl] at hd; simp at hd
      | some w1 =>
        simp only [hl] at hd
        obtain ⟨r1, hs1, hd1, hf1⟩ := ih w1 c k v hd hw
        obtain ⟨hra, hro⟩ := replaceAt_spec w k0 w1 r1 hl
        refine ⟨replaceAt w k0 r1, ?_, ?_, ?_⟩
        · simp only [List.cons_append, set_path_value_cons w k0 (ks' ++ [k]) (by simp) v,
            hl, hs1]
        · rw [List.cons_append]
          simp only [descend, hra]
          exact hd1
        · intro q hq1 hq2
          cases q with
          | nil => exact absurd ⟨(k0 :: ks') ++ [k], rfl⟩ hq2
          | cons k1 q' =>
            by_cases hk : k1 = k0
            · subst hk
              have hq1' : ¬ PathPre (ks' ++ [k]) q' := fun hp =>
                hq1 ((pathPre_cons k1 (ks' ++ [k]) q').mpr hp)
              have hq2' : ¬ PathPre q' (ks' ++ [k]) := fun hp =>
                hq2 ((pathPre_cons k1 q' (ks' ++ [k])).mpr hp)
              simp only [descend, hra, hl]
              exact hf1 q' hq1' hq2'
            · simp only [descend, hro k1 hk]
  · intro ks
    induction ks with
    | nil => intro w k v hd; simp [descend] at hd
    | cons k0 ks' ih =>
      intro w k v hd
      simp only [descend] at hd
      cases hl : lookupN w k0 with
      | none =>
        simp only [List.cons_append, set_path_value_cons w k0 (ks' ++ [k]) (by simp) v, hl]
      | some w1 =>
        simp only [hl] at hd
        simp only [List.cons_append, set_path_value_cons w k0 (ks' ++ [k]) (by simp) v, hl,
          ih w1 k v hd]
  · intro ks
    induction ks with
    | nil =>
      intro w c k v hd hw
      simp only [descend, Option.some.injEq] at hd
      subst hd
      simpa [set_path_value] using setIn_none_of_not_writable w k v hw
    | cons k0 ks' ih =>
      intro w c k v hd hw
      simp only [descend] at hd
      cases hl : lookupN w k0 with
      | none => rw [hl] at hd; simp at hd
      | some w1 =>
        simp only [hl] at hd
        simp only [List.cons_append, set_path_value_cons w k0 (ks' ++ [k]) (by simp) v, hl,
          ih w1 c k v hd hw]

/-- C8 counterexample: every intermediate segment of the path
`["a", 3]` exists in the document `{"a": ["x"]}` (the single intermediate
`"a"` resolves to the one-element list), yet the write fails, because the
final segment is an out-of-range list index — refuting the claim that
existing intermediates alone guarantee the write. -/
theorem set_path_value_oob_cex :
    (descend oobDoc [Key.str "a"]).isSome = true ∧
    set_path_value oobDoc [Key.str "a", Key.idx 3] (Node.leaf (CVal.s "v")) = Option.none :=
  ⟨rfl, rfl⟩

/-- C9 (amended): a POST answered 409 whose JSON object body carries
`additionalProperties.processID = P` triggers exactly one PUT to
`<endpoint>/P`, and the overall result is precisely that PUT's success; any
other POST response with status 400–599 yields failure with no PUT; a POST
response with status outside 400–599 (which includes non-2xx statuses such as
3xx, which `raise_for_status` does not raise on) yields success with no
PUT. -/
theorem submit_request_behavior :
    (∀ (url : String) (w : World) (kvs ap : List (String × Json)) (p : String),
      w.postResult = .resp ⟨409, some (Json.jobj kvs)⟩ →
      lookupJ kvs "additionalProperties" = some (Json.jobj ap) →
      lookupJ ap "processID" = some (Json.jstr p) →
      submit_request url w =
        .ok (httpOk (w.putResult (url ++ "/" ++ p)), [url ++ "/" ++ p])) ∧
    (∀ (url : String) (w : World) (r : HttpResp),
      w.postResult = .resp r → isHttpError r.status = true → r.status ≠ 409 →
      submit_request url w = .ok (false, [])) ∧
    (∀ (url : String) (w : World) (r : HttpResp),
      w.postResult = .resp r → isHttpError r.status = false →
      submit_request url w = .ok (true, [])) := by
  refine ⟨?_, ?_, ?_⟩
  · intro url w kvs ap p hpost hap hpid
    cases hput : w.putResult (url ++ "/" ++ p) with
    | transErr => (simp [submit_request, hpost, hap, hpid, hput, httpOk, strOfJson]; rfl)
    | resp r2 =>
      cases hr2 : isHttpError r2.status with
      | true =>
        (simp [submit_request, hpost, hap, hpid, hput, httpOk, strOfJson, hr2]; rfl)
      | false =>
        (simp [submit_request, hpost, hap, hpid, hput, httpOk, strOfJson, hr2]; rfl)
  · intro url w r hpost herr hne
    simp [submit_request, hpost, herr, hne]
  · intro url w r hpost herr
    simp [submit_request, hpost, herr]

/-- C9 counterexample: a POST answered with HTTP 302 — not a 2xx status — is
not raised on by `raise_for_status`, so `submit_request` returns success with
no PUT issued, refuting "any other non-2xx POST response … overall result is
failure". -/
theorem submit_request_non2xx_cex :
    world302.postResult = HttpResult.resp ⟨302, Option.none⟩ ∧
    ¬ (200 ≤ 302 ∧ 302 < 300) ∧
    submit_request "ep" world302 = .ok (true, []) :=
  ⟨rfl, by decide, rfl⟩

/-- C10: exhibit of the uncaught exception: a POST answered 409 whose JSON
body decodes to an array makes the 409 handler call `.get` on a list, raising
`AttributeError`, which no `except` clause catches — `submit_request`
propagates an exception instead of returning a boolean, contradicting its own
docstring. -/
theorem submit_request_uncaught_exception :
    submit_request "ep" world409arr = .error PyExn.attributeError := rfl

/-! ## Witnesses -/

/-- Witness for C1 at a concrete two-input configuration. -/
theorem input_binding_positions_witness :
    ∃ wf proc step, projectInputs twoInputs = .ok (wf, proc, step) ∧
      (pyDictMerge proc).length = twoInputs.length ∧
      ∀ i : Nat, ((pyDictMerge proc)[i]?.map (fun p => (p.1, p.2.position, p.2.pfx))) =
        (twoInputs[i]?.map (fun r => (r.name, i + 1, "--" ++ nameToStr r.name))) :=
  input_binding_positions twoInputs (by decide) (by decide)

/-- Witness for C2 at a concrete duplicated-name configuration. -/
theorem duplicate_name_aborts_witness :
    (∃ n, projectInputs dupInputs = .error (errDup n)) ∧
    ∀ (cfg : Config) (tmpl : Node) (env : Env) (today : String), cfg.inputs = dupInputs →
      ∀ doc : OutDoc, yaml_to_cwl cfg tmpl env today ≠ .ok doc :=
  duplicate_name_aborts dupInputs 0 1
    ⟨some "x", some "File", Option.none, Option.none, Option.none⟩
    ⟨some "x", some "string", Option.none, Option.none, Option.none⟩
    (by decide) rfl rfl rfl

/-- Witness for C3 at a concrete two-output configuration. -/
theorem output_last_record_wins_witness :
    ∃ last, twoOutputs.getLast? = some last ∧
      pyDictMerge (projectOutputs twoOutputs).2.1 =
        [("outputs_result", ⟨"./output*", last.type⟩)] ∧
      (projectOutputs twoOutputs).2.2 = List.replicate twoOutputs.length "outputs_result" :=
  output_last_record_wins twoOutputs ⟨some "out1", some "File"⟩
    [⟨some "out2", some "Directory"⟩] rfl

/-- Witness for C4 at a concrete configuration and concrete defaults. -/
theorem input_default_shaping_witness :
    ((wfEntries twoInputs)[1]?.map (fun p => p.2.default) =
       twoInputs[1]?.map (fun r => r.default.map (add_input_default r.type)) ∧
     (procEntries 0 twoInputs)[1]?.map (fun p => p.2.default) =
       twoInputs[1]?.map (fun r => r.default.map (add_input_default r.type))) ∧
    add_input_default (some "File") (CVal.s "/data/a.tif") =
      DefVal.classPath "File" (CVal.s "/data/a.tif") ∧
    add_input_default (some "Directory") (CVal.s "/d") =
      DefVal.classPath "Directory" (CVal.s "/d") ∧
    add_input_default (some "string") (CVal.s "5") = DefVal.raw (CVal.s "5") :=
  ⟨input_default_shaping.1 twoInputs (wfEntries twoInputs) (procEntries 0 twoInputs)
      (stepEntries twoInputs) rfl 1,
   input_default_shaping.2.1 (CVal.s "/data/a.tif"),
   input_default_shaping.2.2.1 (CVal.s "/d"),
   input_default_shaping.2.2.2 (some "string") (CVal.s "5") (by decide) (by decide)⟩

/-- Witness for C5 at the specification's own example value. -/
theorem process_value_version_rule_witness :
    process_value [Key.str "s:version"] (CVal.s "v1.0-beta!") =
      CVal.s (String.mk (("v1.0-beta!").data.map (fun c =>
        if ('A' ≤ c ∧ c ≤ 'Z') ∨ ('a' ≤ c ∧ c ≤ 'z') ∨ ('0' ≤ c ∧ c ≤ '9') ∨ c = ' '
        then c else '_'))) ∧
    process_value [Key.str "s:version"] (CVal.s "v1.0-beta!") = CVal.s "v1_0_beta_" ∧
    process_value [Key.str "doc"] (CVal.s "v1.0-beta!") = CVal.s "v1.0-beta!" :=
  ⟨process_value_version_rule.1 [Key.str "s:version"] (CVal.s "v1.0-beta!") rfl,
   rfl,
   process_value_version_rule.2 [Key.str "doc"] (CVal.s "v1.0-beta!") (by decide)⟩

/-- Witness for C6 (amended) at a configuration with one record missing
`name` and another missing `type`. -/
theorem missing_fields_warn_only_witness :
    (∃ wf proc step, projectInputs
      [⟨Option.none, some "string", Option.none, Option.none, Option.none⟩,
       ⟨some "x", Option.none, Option.none, Option.none, Option.none⟩] =
        .ok (wf, proc, step)) ∧
    ∀ outs : List OutputRecord, (projectOutputs outs).2.2.length = outs.length :=
  missing_fields_warn_only
    [⟨Option.none, some "string", Option.none, Option.none, Option.none⟩,
     ⟨some "x", Option.none, Option.none, Option.none, Option.none⟩] (by decide)

/-- Witness for C7 at a concrete configuration, template and environment. -/
theorem graph0_input_keys_roundtrip_witness :
    doc0.wfInputs.map Prod.fst = cfg0.inputs.map (·.name) ∧
    doc0.stepInputs = cfg0.inputs.map (fun r => (r.name, r.name)) :=
  graph0_input_keys_roundtrip cfg0 tmpl0 env0 "2026-10-12" doc0 rfl (by decide) (by decide)

/-- Witness for C8 (amended): a concrete two-level write that succeeds, a
concrete missing-intermediate failure, and a concrete rejected-final-segment
failure. -/
theorem set_path_value_correct_witness :
    (∃ r, set_path_value spvDoc ([Key.str "a"] ++ [Key.str "b"])
        (Node.leaf (CVal.s "z")) = some r ∧
      descend r ([Key.str "a"] ++ [Key.str "b"]) = some (Node.leaf (CVal.s "z")) ∧
      ∀ q, ¬ PathPre ([Key.str "a"] ++ [Key.str "b"]) q →
        ¬ PathPre q ([Key.str "a"] ++ [Key.str "b"]) →
        descend r q = descend spvDoc q) ∧
    set_path_value spvDoc ([Key.str "zz"] ++ [Key.str "b"])
      (Node.leaf (CVal.s "z")) = Option.none ∧
    set_path_value oobDoc ([Key.str "a"] ++ [Key.idx 3])
      (Node.leaf (CVal.s "v")) = Option.none :=
  ⟨set_path_value_correct.1 [Key.str "a"] spvDoc (Node.dict []) (Key.str "b")
     (Node.leaf (CVal.s "z")) rfl rfl,
   set_path_value_correct.2.1 [Key.str "zz"] spvDoc (Key.str "b")
     (Node.leaf (CVal.s "z")) rfl,
   set_path_value_correct.2.2 [Key.str "a"] oobDoc (Node.arr [Node.leaf (CVal.s "x")])
     (Key.idx 3) (Node.leaf (CVal.s "v")) rfl rfl⟩

/-- Witness for C9 (amended) at the specification's deployment scenario
(`processID = "p123"`) and at a plain 500 response. -/
theorem submit_request_behavior_witness :
    submit_request "ep" world409 =
      .ok (httpOk (world409.putResult ("ep" ++ "/" ++ "p123")), ["ep" ++ "/" ++ "p123"]) ∧
    submit_request "ep" world500 = .ok (false, []) :=
  ⟨submit_request_behavior.1 "ep" world409
      [("detail", Json.jstr "exists"),
       ("additionalProperties", Json.jobj [("processID", Json.jstr "p123")])]
      [("processID", Json.jstr "p123")] "p123" rfl rfl rfl,
   submit_request_behavior.2.1 "ep" world500 ⟨500, Option.none⟩ rfl rfl (by decide)⟩

end CwlGen

